import Mathlib

/-!
Janus API loader (`api/loader.go`).

A shallow embedding of `Loader.Load`, `Loader.LoadApps` and
`Loader.getAPISpecs`.  The loader's effects (log lines, limiter
constructions, `Register` calls) are recorded, in program order, in an
explicit trace; the `Spec` variables that `getAPISpecs` allocates live in an
explicit heap.  Trace and heap are threaded through the code as state.
-/

namespace Janus

/-! ## Data model -/

/-- Go `proxy.Proxy`: the fields the loader hands over to the registry. -/
structure Proxy where
  ListenPath : String
  TargetURL : String
deriving DecidableEq, Repr

/-- Go `RateLimitMeta`: `Limit` is an `int64`, of which no arithmetic is done here. -/
structure RateLimitMeta where
  Enabled : Bool
  Limit : Int
deriving DecidableEq, Repr

/-- Go `CorsMeta`: the flag and the policy payload carried to the CORS middleware. -/
structure CorsMeta where
  Enabled : Bool
  Domains : List String
deriving DecidableEq, Repr

/-- Go `api.Definition`, restricted to the fields read by the loader. -/
structure Definition where
  Proxy : Proxy
  Active : Bool
  RateLimit : RateLimitMeta
  CorsMeta : CorsMeta
  UseOauth2 : Bool
deriving DecidableEq, Repr

/-- Go `api.Spec`: a wrapper around one `Definition`. -/
structure Spec where
  Definition : Definition
deriving DecidableEq, Repr

/-- The zero value `Spec{}` of the source. -/
def Spec.zero : Spec :=
  ⟨⟨⟨"", ""⟩, false, ⟨false, 0⟩, ⟨false, []⟩, false⟩⟩

/-- Go `speedbump.PerSecondHasher{}`. -/
inductive Hasher where
  | PerSecondHasher
deriving DecidableEq, Repr

/-- The value built by `speedbump.NewLimiter(client, hasher, max)`. -/
structure Limiter where
  redisClient : Nat
  hasher : Hasher
  max : Int
deriving DecidableEq, Repr

/-- A `router.Constructor` as the loader builds it: which middleware it is and
what it was built from. -/
inductive Handler where
  | RateLimit (limiter : Limiter) (hasher : Hasher) (limit : Int)
  | Cors (cfg : CorsMeta)
  | OAuthKeyExists (manager : Nat)
deriving DecidableEq, Repr

/-- The result of `repo.FindAll()`: the definitions read, or the error. -/
structure Repo where
  FindAll : Except String (List Definition)

/-- The backing store seen through `m.accessor`: the result of
`NewMongoAppRepository(m.accessor.Session.DB(""))`. -/
structure DatabaseAccessor where
  NewMongoAppRepository : Except String Repo

/-- The fields of Go `Loader` that the code reads; the redis client and the
OAuth manager are handles. -/
structure Loader where
  redisClient : Nat
  accessor : DatabaseAccessor
  manager : Nat

/-- Logrus levels used by the loader. -/
inductive Level where
  | Debug
  | Error
  | Panic
deriving DecidableEq, Repr

/-- One observable effect of the loader. -/
inductive Event where
  | Log (lvl : Level) (msg : String)
  | NewLimiter (limiter : Limiter)
  | Register (proxy : Proxy) (handlers : List Handler)
deriving DecidableEq, Repr

/-- A `*Spec`: the index of a `Spec` variable in the heap. -/
abbrev Ptr := Nat

/-- A Go slice value; `none` is the nil slice. -/
abbrev Slice (α : Type) := Option (List α)

/-- The elements of a slice; the nil slice has none. -/
def Slice.toList {α : Type} (s : Slice α) : List α := s.getD []

/-- Go `append(s, x)`: the result is never the nil slice. -/
def Slice.append {α : Type} (s : Slice α) (x : α) : Slice α := some (s.toList ++ [x])

/-- The state the loader runs in. -/
structure World where
  trace : List Event
  heap : List Spec
deriving DecidableEq, Repr

/-- The state before anything has happened. -/
def World.init : World := ⟨[], []⟩

/-- The world with more effects recorded. -/
def World.addTrace (w : World) (es : List Event) : World :=
  { w with trace := w.trace ++ es }

/-! ## Effectful primitives -/

/-- Record one effect at the end of the trace. -/
def emit (e : Event) : StateM World Unit :=
  modify fun w => { w with trace := w.trace ++ [e] }

/-- Go `log.Debug(msg)`. -/
def logDebug (msg : String) : StateM World Unit :=
  emit (Event.Log Level.Debug msg)

/-- Go `log.Error(msg)`. -/
def logError (msg : String) : StateM World Unit :=
  emit (Event.Log Level.Error msg)

/-- Go `log.Panic(err)`: the entry is logged, then the goroutine panics. -/
def logPanic {α : Type} (err : String) : ExceptT String (StateM World) α := do
  emit (Event.Log Level.Panic err)
  throw err

/-- Go `speedbump.NewLimiter(client, hasher, max)`. -/
def NewLimiter (client : Nat) (hasher : Hasher) (max : Int) : StateM World Limiter := do
  let limiter : Limiter := ⟨client, hasher, max⟩
  emit (Event.NewLimiter limiter)
  return limiter

/-- Go `m.proxyRegister.Register(proxy, handlers...)`, as a recorded call. -/
def Register (proxy : Proxy) (handlers : List Handler) : StateM World Unit :=
  emit (Event.Register proxy handlers)

/-- A fresh `Spec` variable holding `v`; the result is its address. -/
def newVar (v : Spec) : StateM World Ptr :=
  modifyGet fun w => (w.heap.length, { w with heap := w.heap ++ [v] })

/-- Go `p.Definition = d` on the variable at address `p`. -/
def setDefinition (p : Ptr) (d : Definition) : StateM World Unit :=
  modify fun w => { w with heap := w.heap.modify (fun s => { s with Definition := d }) p }

/-- Go `*p`; a dangling or nil address panics. -/
def deref (p : Ptr) : ExceptT String (StateM World) Spec := do
  match (← get).heap[p]? with
  | some v => pure v
  | none => throw "invalid memory address or nil pointer dereference"

/-! ## `Loader.LoadApps` -/

/-- Lines 43-50 of loader.go: the value of `skip` when `if skip` tests it. -/
def skipFlag (Validate : Proxy → Bool) (referenceSpec : Spec) : StateM World Bool := do
  let mut skip : Bool := false
  skip := Validate referenceSpec.Definition.Proxy
  if false == referenceSpec.Definition.Active then
    logDebug "API is not active, skiping..."
    skip := false
  return skip

/-- The body of the `for _, referenceSpec := range apiSpecs` loop of
`LoadApps` (loader.go lines 43-81).  `Validate` is `proxy.Validate`. -/
def loopBody (m : Loader) (Validate : Proxy → Bool) (referenceSpec : Spec) :
    StateM World Unit := do
  let skip ← skipFlag Validate referenceSpec
  if skip then
    let hasher := Hasher.PerSecondHasher
    let limit := referenceSpec.Definition.RateLimit.Limit
    let limiter ← NewLimiter m.redisClient hasher limit
    let mut handlers : List Handler := []
    if referenceSpec.Definition.RateLimit.Enabled then
      handlers := handlers ++ [Handler.RateLimit limiter hasher limit]
    else
      logDebug "Rate limit is not enabled"
    if referenceSpec.Definition.CorsMeta.Enabled then
      handlers := handlers ++ [Handler.Cors referenceSpec.Definition.CorsMeta]
    else
      logDebug "CORS is not enabled"
    if referenceSpec.Definition.UseOauth2 then
      handlers := handlers ++ [Handler.OAuthKeyExists m.manager]
    else
      logDebug "OAuth2 is not enabled"
    Register referenceSpec.Definition.Proxy handlers
    logDebug "Proxy registered"
  else
    logError "Listen path is empty, skipping..."

/-- The `range` loop of `LoadApps`: the body once per spec, in slice order. -/
def rangeLoop (m : Loader) (Validate : Proxy → Bool) : List Spec → StateM World Unit
  | [] => pure ()
  | referenceSpec :: rest => do
    loopBody m Validate referenceSpec
    rangeLoop m Validate rest

/-- Go `(*Loader).LoadApps`, for one run alone (the mutex is then always
free).  The specs are read and never written, so the run is given the values
its `*Spec` arguments point to. -/
def LoadApps (m : Loader) (Validate : Proxy → Bool) (apiSpecs : List Spec) :
    StateM World Unit := do
  logDebug "Loading API configurations"
  rangeLoop m Validate apiSpecs

/-! ## `Loader.getAPISpecs` and `Loader.Load` -/

/-- The `for _, definition := range definitions` loop of `getAPISpecs`
(loader.go lines 99-103), with the slice built so far. -/
def wrapLoop : List Definition → Slice Ptr → StateM World (Slice Ptr)
  | [], APISpecs => pure APISpecs
  | definition :: rest, APISpecs => do
    let newAppSpec ← newVar Spec.zero
    setDefinition newAppSpec definition
    wrapLoop rest (Slice.append APISpecs newAppSpec)

/-- Go `(*Loader).getAPISpecs`. -/
def getAPISpecs (m : Loader) : ExceptT String (StateM World) (Slice Ptr) := do
  logDebug "Using App Configuration from Mongo DB"
  let repo ← match m.accessor.NewMongoAppRepository with
    | Except.error err => logPanic err
    | Except.ok repo => pure repo
  let definitions ← match repo.FindAll with
    | Except.error err => logPanic err
    | Except.ok definitions => pure definitions
  let APISpecs : Slice Ptr := some []
  wrapLoop definitions APISpecs

/-- The values a slice of `*Spec` points to. -/
def derefAll : List Ptr → ExceptT String (StateM World) (List Spec)
  | [] => pure []
  | p :: rest => do
    let v ← deref p
    let vs ← derefAll rest
    pure (v :: vs)

/-- Go `(*Loader).Load`: the fetch, then the dispatched `LoadApps` run to its
end. -/
def Load (m : Loader) (Validate : Proxy → Bool) : ExceptT String (StateM World) Unit := do
  let specs ← getAPISpecs m
  let apiSpecs ← derefAll specs.toList
  LoadApps m Validate apiSpecs

/-! ## Observations -/

/-- The effects of one iteration of the `LoadApps` loop on a spec. -/
def specEvents (m : Loader) (Validate : Proxy → Bool) (s : Spec) : List Event :=
  ((loopBody m Validate s).run World.init).2.trace

/-- The effects of one `LoadApps` run started with no effect recorded. -/
def runLoadApps (m : Loader) (Validate : Proxy → Bool) (apiSpecs : List Spec) : List Event :=
  ((LoadApps m Validate apiSpecs).run World.init).2.trace

/-- The `Register` calls of a trace, in order. -/
def registerCalls : List Event → List (Proxy × List Handler)
  | [] => []
  | Event.Register p hs :: rest => (p, hs) :: registerCalls rest
  | _ :: rest => registerCalls rest

/-- The limiters constructed in a trace, in order. -/
def limiterCalls : List Event → List Limiter
  | [] => []
  | Event.NewLimiter l :: rest => l :: limiterCalls rest
  | _ :: rest => limiterCalls rest

/-- The log entries of a trace, in order. -/
def logEntries : List Event → List (Level × String)
  | [] => []
  | Event.Log lvl msg :: rest => (lvl, msg) :: logEntries rest
  | _ :: rest => logEntries rest

/-- Whether the loader registers the spec: §4.2, both predicates. -/
def registrable (Validate : Proxy → Bool) (s : Spec) : Bool :=
  Validate s.Definition.Proxy && s.Definition.Active

/-- The chain of §4.4, in the spec's words: rate limit, then CORS, then OAuth,
each only if enabled. -/
def BuildChain_spec (m : Loader) (s : Spec) : List Handler :=
  (if s.Definition.RateLimit.Enabled then
      [Handler.RateLimit ⟨m.redisClient, Hasher.PerSecondHasher, s.Definition.RateLimit.Limit⟩
        Hasher.PerSecondHasher s.Definition.RateLimit.Limit]
    else []) ++
  (if s.Definition.CorsMeta.Enabled then [Handler.Cors s.Definition.CorsMeta] else []) ++
  (if s.Definition.UseOauth2 then [Handler.OAuthKeyExists m.manager] else [])

/-- Modelled from the spec: `proxy.Validate`, of package `proxy`, is not among
the sources; §4.2 gives "listen path is non-empty". -/
def proxy.Validate (p : Proxy) : Bool :=
  p.ListenPath != ""

/-- Whether a handler is the rate-limit middleware. -/
def Handler.isRateLimit : Handler → Bool
  | Handler.RateLimit _ _ _ => true
  | _ => false

/-- Whether a handler is the CORS middleware. -/
def Handler.isCors : Handler → Bool
  | Handler.Cors _ => true
  | _ => false

/-- Whether a handler is the OAuth key-exists middleware. -/
def Handler.isOAuth : Handler → Bool
  | Handler.OAuthKeyExists _ => true
  | _ => false

/-- The place of a middleware in the order of §4.4. -/
def Handler.rank : Handler → Nat
  | Handler.RateLimit _ _ _ => 0
  | Handler.Cors _ => 1
  | Handler.OAuthKeyExists _ => 2

/-- The rate-limit handler of a spec: limiter and middleware built with the
spec's limit. -/
def rateLimitHandler (m : Loader) (s : Spec) : Handler :=
  Handler.RateLimit ⟨m.redisClient, Hasher.PerSecondHasher, s.Definition.RateLimit.Limit⟩
    Hasher.PerSecondHasher s.Definition.RateLimit.Limit

/-- Modelled from the spec: the Proxy Registry behind `proxy.Register`, which
is not among the sources, as the table from listen path to registry entry (§3:
the pairing of a proxy config with its chain). -/
abbrev Registry := String → Option (Proxy × List Handler)

/-- Modelled from the spec: the registry with no proxy registered; the
`Register` type and its constructor are not among the sources. -/
def Registry.empty : Registry := fun _ => none

/-- Modelled from the spec: `(*proxy.Register).Register`, not among the sources;
§4.5: "a later call's chain supersedes an earlier one for that path", the
entries of other paths staying as they are. -/
def Registry.Register (r : Registry) (proxy : Proxy) (handlers : List Handler) : Registry :=
  fun path => if path = proxy.ListenPath then some (proxy, handlers) else r path

/-- The registry after the `Register` calls of a trace, applied in order. -/
def registryAfter (r : Registry) (t : List Event) : Registry :=
  (registerCalls t).foldl (fun acc call => acc.Register call.1 call.2) r

/-! ## Concrete inputs -/

/-- A loader whose store holds no definition. -/
def demoLoader : Loader := ⟨1, ⟨Except.ok ⟨Except.ok []⟩⟩, 2⟩

/-- Scenario A of §8: active, `/orders`, rate limit 100, no CORS, OAuth. -/
def scenarioA : Spec :=
  ⟨⟨⟨"/orders", "http://orders"⟩, true, ⟨true, 100⟩, ⟨false, []⟩, true⟩⟩

/-- Scenario B of §8: an inactive spec whose proxy is valid. -/
def scenarioB : Spec :=
  ⟨⟨⟨"/b", "http://b"⟩, false, ⟨true, 5⟩, ⟨true, ["*"]⟩, true⟩⟩

/-- Scenario C of §8: an active spec with an empty listen path. -/
def scenarioC : Spec :=
  ⟨⟨⟨"", "http://c"⟩, true, ⟨false, 0⟩, ⟨true, ["*"]⟩, false⟩⟩

/-- An active, valid spec with all three middlewares enabled. -/
def fullSpec : Spec :=
  ⟨⟨⟨"/full", "http://full"⟩, true, ⟨true, 10⟩, ⟨true, ["*"]⟩, true⟩⟩

/-- An active, valid spec with rate limiting disabled and a limit of 7. -/
def noLimitSpec : Spec :=
  ⟨⟨⟨"/open", "http://open"⟩, true, ⟨false, 7⟩, ⟨false, []⟩, false⟩⟩

/-- Scenario D of §8, first spec: `/a`, active and valid, CORS only. -/
def scenarioD1 : Spec :=
  ⟨⟨⟨"/a", "http://one"⟩, true, ⟨false, 0⟩, ⟨true, ["*"]⟩, false⟩⟩

/-- Scenario D of §8, second spec: `/a`, active and valid, rate limit and OAuth. -/
def scenarioD2 : Spec :=
  ⟨⟨⟨"/a", "http://two"⟩, true, ⟨true, 3⟩, ⟨false, []⟩, true⟩⟩

/-- A loader whose repository cannot be created. -/
def noRepoLoader : Loader := ⟨1, ⟨Except.error "no reachable servers"⟩, 2⟩

/-- A loader whose `FindAll` fails. -/
def noReadLoader : Loader := ⟨1, ⟨Except.ok ⟨Except.error "read failed"⟩⟩, 2⟩

/-- A loader whose store holds the definitions of scenarios A and B. -/
def twoDefsLoader : Loader :=
  ⟨1, ⟨Except.ok ⟨Except.ok [scenarioA.Definition, scenarioB.Definition]⟩⟩, 2⟩

/-! ## Running the code -/

theorem skipFlag_run (V : Proxy → Bool) (s : Spec) (w : World) :
    (skipFlag V s).run w =
      (V s.Definition.Proxy && s.Definition.Active,
        w.addTrace (if s.Definition.Active then []
          else [Event.Log Level.Debug "API is not active, skiping..."])) := by
  unfold skipFlag
  cases hV : V s.Definition.Proxy <;> cases hA : s.Definition.Active <;>
    simp [World.addTrace, logDebug, emit, StateT.run, bind, StateT.bind, modify, modifyGet,
      MonadStateOf.modifyGet, StateT.modifyGet, pure, StateT.pure]

theorem loopBody_run (m : Loader) (V : Proxy → Bool) (s : Spec) (w : World) :
    (loopBody m V s).run w = ((), w.addTrace (specEvents m V s)) := by
  unfold specEvents loopBody skipFlag
  cases hV : V s.Definition.Proxy <;> cases hA : s.Definition.Active <;>
  cases hR : s.Definition.RateLimit.Enabled <;> cases hC : s.Definition.CorsMeta.Enabled <;>
  cases hO : s.Definition.UseOauth2 <;>
    simp [World.addTrace, World.init, logDebug, logError, emit, NewLimiter, Register, StateT.run,
      bind, StateT.bind, modify, modifyGet, MonadStateOf.modifyGet, StateT.modifyGet, pure,
      StateT.pure]

theorem specEvents_eq (m : Loader) (V : Proxy → Bool) (s : Spec) :
    specEvents m V s =
      (if s.Definition.Active then []
        else [Event.Log Level.Debug "API is not active, skiping..."]) ++
      (if registrable V s then
        [Event.NewLimiter ⟨m.redisClient, Hasher.PerSecondHasher, s.Definition.RateLimit.Limit⟩] ++
        (if s.Definition.RateLimit.Enabled then []
          else [Event.Log Level.Debug "Rate limit is not enabled"]) ++
        (if s.Definition.CorsMeta.Enabled then []
          else [Event.Log Level.Debug "CORS is not enabled"]) ++
        (if s.Definition.UseOauth2 then []
          else [Event.Log Level.Debug "OAuth2 is not enabled"]) ++
        [Event.Register s.Definition.Proxy (BuildChain_spec m s),
          Event.Log Level.Debug "Proxy registered"]
      else [Event.Log Level.Error "Listen path is empty, skipping..."]) := by
  unfold specEvents loopBody skipFlag registrable BuildChain_spec
  cases hV : V s.Definition.Proxy <;> cases hA : s.Definition.Active <;>
  cases hR : s.Definition.RateLimit.Enabled <;> cases hC : s.Definition.CorsMeta.Enabled <;>
  cases hO : s.Definition.UseOauth2 <;>
    simp [World.init, logDebug, logError, emit, NewLimiter, Register, StateT.run,
      bind, StateT.bind, modify, modifyGet, MonadStateOf.modifyGet, StateT.modifyGet, pure,
      StateT.pure]

theorem rangeLoop_run (m : Loader) (V : Proxy → Bool) (specs : List Spec) (w : World) :
    (rangeLoop m V specs).run w = ((), w.addTrace (specs.flatMap (specEvents m V))) := by
  induction specs generalizing w with
  | nil => simp [rangeLoop, World.addTrace, StateT.run, pure, StateT.pure]
  | cons s rest ih =>
    have h1 := loopBody_run m V s w
    have h2 := ih (w.addTrace (specEvents m V s))
    simp only [StateT.run] at h1 h2 ⊢
    simp only [rangeLoop, bind, StateT.bind, h1, h2]
    simp [World.addTrace]

theorem LoadApps_run (m : Loader) (V : Proxy → Bool) (specs : List Spec) (w : World) :
    (LoadApps m V specs).run w =
      ((), w.addTrace (Event.Log Level.Debug "Loading API configurations" ::
        specs.flatMap (specEvents m V))) := by
  have h := rangeLoop_run m V specs
    (w.addTrace [Event.Log Level.Debug "Loading API configurations"])
  simp only [StateT.run] at h ⊢
  simp [LoadApps, logDebug, emit, bind, StateT.bind, modify, modifyGet,
    MonadStateOf.modifyGet, StateT.modifyGet, World.addTrace] at h ⊢
  simpa using h

theorem runLoadApps_eq (m : Loader) (V : Proxy → Bool) (specs : List Spec) :
    runLoadApps m V specs =
      Event.Log Level.Debug "Loading API configurations" :: specs.flatMap (specEvents m V) := by
  simp [runLoadApps, LoadApps_run, World.addTrace, World.init]


/-! ## Reading a trace -/

theorem registerCalls_append (t u : List Event) :
    registerCalls (t ++ u) = registerCalls t ++ registerCalls u := by
  induction t with
  | nil => rfl
  | cons e rest ih => cases e <;> simp [registerCalls, ih]

theorem limiterCalls_append (t u : List Event) :
    limiterCalls (t ++ u) = limiterCalls t ++ limiterCalls u := by
  induction t with
  | nil => rfl
  | cons e rest ih => cases e <;> simp [limiterCalls, ih]

theorem logEntries_append (t u : List Event) :
    logEntries (t ++ u) = logEntries t ++ logEntries u := by
  induction t with
  | nil => rfl
  | cons e rest ih => cases e <;> simp [logEntries, ih]

theorem mem_registerCalls (t : List Event) (p : Proxy) (hs : List Handler) :
    (p, hs) ∈ registerCalls t ↔ Event.Register p hs ∈ t := by
  induction t with
  | nil => simp [registerCalls]
  | cons e rest ih => cases e <;> simp [registerCalls, ih]

theorem registerCalls_specEvents (m : Loader) (V : Proxy → Bool) (s : Spec) :
    registerCalls (specEvents m V s) =
      if registrable V s then [(s.Definition.Proxy, BuildChain_spec m s)] else [] := by
  rw [specEvents_eq]
  cases registrable V s <;> cases s.Definition.Active <;>
  cases s.Definition.RateLimit.Enabled <;> cases s.Definition.CorsMeta.Enabled <;>
  cases s.Definition.UseOauth2 <;> simp [registerCalls]

theorem registerCalls_flatMap (m : Loader) (V : Proxy → Bool) (specs : List Spec) :
    registerCalls (specs.flatMap (specEvents m V)) =
      (specs.filter (registrable V)).map fun s => (s.Definition.Proxy, BuildChain_spec m s) := by
  induction specs with
  | nil => simp [registerCalls]
  | cons s rest ih =>
    rw [List.flatMap_cons, registerCalls_append, registerCalls_specEvents, ih]
    cases h : registrable V s <;> simp [List.filter_cons, h]

theorem registerCalls_runLoadApps (m : Loader) (V : Proxy → Bool) (specs : List Spec) :
    registerCalls (runLoadApps m V specs) =
      (specs.filter (registrable V)).map fun s => (s.Definition.Proxy, BuildChain_spec m s) := by
  rw [runLoadApps_eq]
  simp [registerCalls, registerCalls_flatMap]


theorem runLoadApps_append (m : Loader) (V : Proxy → Bool) (xs ys : List Spec) :
    runLoadApps m V (xs ++ ys) = runLoadApps m V xs ++ ys.flatMap (specEvents m V) := by
  simp [runLoadApps_eq, List.flatMap_append]

/-! ## The chain -/

theorem BuildChain_spec_flags (m : Loader) (s s' : Spec)
    (h : BuildChain_spec m s' = BuildChain_spec m s) :
    s'.Definition.RateLimit.Enabled = s.Definition.RateLimit.Enabled ∧
    s'.Definition.CorsMeta.Enabled = s.Definition.CorsMeta.Enabled ∧
    s'.Definition.UseOauth2 = s.Definition.UseOauth2 := by
  unfold BuildChain_spec at h
  cases h1 : s.Definition.RateLimit.Enabled <;> cases h2 : s.Definition.CorsMeta.Enabled <;>
  cases h3 : s.Definition.UseOauth2 <;> cases h4 : s'.Definition.RateLimit.Enabled <;>
  cases h5 : s'.Definition.CorsMeta.Enabled <;> cases h6 : s'.Definition.UseOauth2 <;>
    simp [h1, h2, h3, h4, h5, h6] at h ⊢

theorem BuildChain_spec_length (m : Loader) (s : Spec) :
    (BuildChain_spec m s).length =
      s.Definition.RateLimit.Enabled.toNat + s.Definition.CorsMeta.Enabled.toNat +
        s.Definition.UseOauth2.toNat := by
  unfold BuildChain_spec
  cases s.Definition.RateLimit.Enabled <;> cases s.Definition.CorsMeta.Enabled <;>
  cases s.Definition.UseOauth2 <;> simp

theorem BuildChain_spec_sorted (m : Loader) (s : Spec) :
    (BuildChain_spec m s).Pairwise fun a b => a.rank < b.rank := by
  unfold BuildChain_spec
  cases s.Definition.RateLimit.Enabled <;> cases s.Definition.CorsMeta.Enabled <;>
  cases s.Definition.UseOauth2 <;> simp [Handler.rank]

theorem BuildChain_spec_order (m : Loader) (s : Spec) (i j : Nat) (a b : Handler)
    (hi : (BuildChain_spec m s)[i]? = some a) (hj : (BuildChain_spec m s)[j]? = some b)
    (hab : a.rank < b.rank) : i < j := by
  by_contra hij
  have hle : j ≤ i := Nat.le_of_not_lt hij
  obtain ⟨hi', hia⟩ := List.getElem?_eq_some.mp hi
  obtain ⟨hj', hjb⟩ := List.getElem?_eq_some.mp hj
  rcases Nat.eq_or_lt_of_le hle with heq | hlt
  · subst heq
    rw [hia] at hjb
    subst hjb
    exact Nat.lt_irrefl _ hab
  · have h := (List.pairwise_iff_getElem.mp (BuildChain_spec_sorted m s)) j i hj' hi' hlt
    rw [hia, hjb] at h
    exact Nat.lt_asymm h hab

theorem BuildChain_spec_ends (m : Loader) (s : Spec) :
    (s.Definition.RateLimit.Enabled = true →
      (BuildChain_spec m s).head? = some (rateLimitHandler m s)) ∧
    (s.Definition.CorsMeta.Enabled = true →
      Handler.Cors s.Definition.CorsMeta ∈ BuildChain_spec m s) ∧
    (s.Definition.UseOauth2 = true →
      (BuildChain_spec m s).getLast? = some (Handler.OAuthKeyExists m.manager)) := by
  unfold BuildChain_spec rateLimitHandler
  cases s.Definition.RateLimit.Enabled <;> cases s.Definition.CorsMeta.Enabled <;>
  cases s.Definition.UseOauth2 <;> simp

/-! ## Running the fetch -/

theorem modify_length_append (f : Spec → Spec) (l : List Spec) (x : Spec) :
    (l ++ [x]).modify f l.length = l ++ [f x] := by
  induction l with
  | nil => rfl
  | cons a rest ih => simpa [List.modify_succ_cons] using ih

theorem wrapLoop_run (defs : List Definition) (l : List Ptr) (w : World) :
    (wrapLoop defs (some l)).run w =
      (some (l ++ List.range' w.heap.length defs.length),
        { w with heap := w.heap ++ defs.map Spec.mk }) := by
  induction defs generalizing l w with
  | nil => simp [wrapLoop, StateT.run, pure, StateT.pure]
  | cons d rest ih =>
    have h := ih (l ++ [w.heap.length]) { w with heap := w.heap ++ [Spec.mk d] }
    simp only [StateT.run] at h ⊢
    simp only [wrapLoop, newVar, setDefinition, bind, StateT.bind, modify, modifyGet,
      MonadStateOf.modifyGet, StateT.modifyGet, pure, StateT.pure, Slice.append, Slice.toList,
      Option.getD_some, modify_length_append]
    have hz : ({ Spec.zero with Definition := d } : Spec) = Spec.mk d := rfl
    rw [hz]
    show wrapLoop rest (some (l ++ [w.heap.length])) { w with heap := w.heap ++ [Spec.mk d] } = _
    rw [h]
    simp [List.range'_succ, Nat.add_comm]


theorem deref_run (p : Ptr) (w : World) (v : Spec) (h : w.heap[p]? = some v) :
    (deref p).run.run w = (Except.ok v, w) := by
  simp [deref, ExceptT.run, StateT.run, bind, ExceptT.bind, ExceptT.mk, ExceptT.bindCont,
    StateT.bind, get, getThe, MonadStateOf.get, liftM, monadLift, MonadLift.monadLift,
    ExceptT.lift, StateT.get, Functor.map, StateT.map, h, pure, ExceptT.pure, StateT.pure]

theorem derefAll_run (vs : List Spec) (n : Nat) (w : World)
    (h : ∀ i, i < vs.length → w.heap[n + i]? = vs[i]?) :
    (derefAll (List.range' n vs.length)).run.run w = (Except.ok vs, w) := by
  induction vs generalizing n with
  | nil => simp [derefAll, ExceptT.run, StateT.run, pure, ExceptT.pure, ExceptT.mk, StateT.pure]
  | cons v rest ih =>
    have h0 : w.heap[n]? = some v := by simpa using h 0 (by simp)
    have hd := deref_run n w v h0
    have hr := ih (n + 1) (fun i hi => by
      have := h (i + 1) (by simpa using hi)
      simpa [Nat.add_assoc, Nat.add_comm 1 i] using this)
    simp only [ExceptT.run, StateT.run] at hd hr ⊢
    simp only [List.length_cons, List.range'_succ, derefAll, bind, ExceptT.bind, ExceptT.mk,
      ExceptT.bindCont, StateT.bind, hd, hr, pure, ExceptT.pure, StateT.pure]

theorem getAPISpecs_run_newRepo_error (m : Loader) (w : World) (err : String)
    (h : m.accessor.NewMongoAppRepository = Except.error err) :
    (getAPISpecs m).run.run w =
      (Except.error err, w.addTrace [Event.Log Level.Debug "Using App Configuration from Mongo DB",
        Event.Log Level.Panic err]) := by
  simp [getAPISpecs, h, logPanic, logDebug, emit, World.addTrace, ExceptT.run, StateT.run, bind,
    ExceptT.bind, ExceptT.mk, ExceptT.bindCont, StateT.bind, liftM, monadLift,
    MonadLift.monadLift, ExceptT.lift, Functor.map, StateT.map, modify, modifyGet,
    MonadStateOf.modifyGet, StateT.modifyGet, throw, throwThe, MonadExceptOf.throw, pure,
    ExceptT.pure, StateT.pure]


theorem getAPISpecs_run_findAll_error (m : Loader) (w : World) (repo : Repo) (err : String)
    (h : m.accessor.NewMongoAppRepository = Except.ok repo)
    (hf : repo.FindAll = Except.error err) :
    (getAPISpecs m).run.run w =
      (Except.error err, w.addTrace [Event.Log Level.Debug "Using App Configuration from Mongo DB",
        Event.Log Level.Panic err]) := by
  simp [getAPISpecs, h, hf, logPanic, logDebug, emit, World.addTrace, ExceptT.run, StateT.run,
    bind, ExceptT.bind, ExceptT.mk, ExceptT.bindCont, StateT.bind, liftM, monadLift,
    MonadLift.monadLift, ExceptT.lift, Functor.map, StateT.map, modify, modifyGet,
    MonadStateOf.modifyGet, StateT.modifyGet, throw, throwThe, MonadExceptOf.throw, pure,
    ExceptT.pure, StateT.pure]

theorem getAPISpecs_run_ok (m : Loader) (w : World) (repo : Repo) (defs : List Definition)
    (h : m.accessor.NewMongoAppRepository = Except.ok repo)
    (hf : repo.FindAll = Except.ok defs) :
    (getAPISpecs m).run.run w =
      (Except.ok (some (List.range' w.heap.length defs.length)),
        { trace := w.trace ++ [Event.Log Level.Debug "Using App Configuration from Mongo DB"],
          heap := w.heap ++ defs.map Spec.mk }) := by
  have hw := wrapLoop_run defs []
    { w with trace := w.trace ++ [Event.Log Level.Debug "Using App Configuration from Mongo DB"] }
  simp only [StateT.run] at hw
  simp [getAPISpecs, h, hf, logDebug, emit, ExceptT.run, StateT.run,
    bind, ExceptT.bind, ExceptT.mk, ExceptT.bindCont, StateT.bind, liftM, monadLift,
    MonadLift.monadLift, ExceptT.lift, Functor.map, StateT.map, modify, modifyGet,
    MonadStateOf.modifyGet, StateT.modifyGet, pure, ExceptT.pure, StateT.pure, hw]

theorem Load_run_error (m : Loader) (V : Proxy → Bool) (w w' : World) (err : String)
    (h : (getAPISpecs m).run.run w = (Except.error err, w')) :
    (Load m V).run.run w = (Except.error err, w') := by
  simp only [ExceptT.run, StateT.run] at h ⊢
  simp [Load, bind, ExceptT.bind, ExceptT.mk, ExceptT.bindCont, StateT.bind, h, pure,
    StateT.pure]

theorem Load_run_ok (m : Loader) (V : Proxy → Bool) (w : World) (repo : Repo)
    (defs : List Definition)
    (h : m.accessor.NewMongoAppRepository = Except.ok repo)
    (hf : repo.FindAll = Except.ok defs) :
    (Load m V).run.run w =
      (Except.ok (),
        { trace := w.trace ++ [Event.Log Level.Debug "Using App Configuration from Mongo DB"] ++
            (Event.Log Level.Debug "Loading API configurations" ::
              (defs.map Spec.mk).flatMap (specEvents m V)),
          heap := w.heap ++ defs.map Spec.mk }) := by
  have hg := getAPISpecs_run_ok m w repo defs h hf
  have hd := derefAll_run (defs.map Spec.mk) w.heap.length
    { trace := w.trace ++ [Event.Log Level.Debug "Using App Configuration from Mongo DB"],
      heap := w.heap ++ defs.map Spec.mk }
    (fun i hi => by simp [List.getElem?_append_right])
  have hl := LoadApps_run m V (defs.map Spec.mk)
    { trace := w.trace ++ [Event.Log Level.Debug "Using App Configuration from Mongo DB"],
      heap := w.heap ++ defs.map Spec.mk }
  rw [List.length_map] at hd
  simp only [ExceptT.run, StateT.run] at hg hd hl ⊢
  simp [Load, bind, ExceptT.bind, ExceptT.mk, ExceptT.bindCont, StateT.bind, hg, hd, hl,
    Slice.toList, liftM, monadLift, MonadLift.monadLift, ExceptT.lift, Functor.map, StateT.map,
    World.addTrace, pure, ExceptT.pure, StateT.pure]


/-! ## Claims about `LoadApps` -/

/-- C1: in a `LoadApps` run over `xs ++ s :: ys` the iteration for `s`
contributes its own effects between those of `xs` and those of `ys`; the flag
`skip`, when `if skip` tests it, equals `Validate(s.Proxy) && s.Active`; the
iteration calls `Register` if and only if the proxy is valid and the spec is
active, once if so and never if the spec is inactive or its proxy invalid. -/
theorem C1_register_iff_valid_and_active (m : Loader) (V : Proxy → Bool)
    (xs ys : List Spec) (s : Spec) (w : World) :
    runLoadApps m V (xs ++ s :: ys) =
      runLoadApps m V xs ++ specEvents m V s ++ ys.flatMap (specEvents m V) ∧
    ((skipFlag V s).run w).1 = (V s.Definition.Proxy && s.Definition.Active) ∧
    ((∃ p hs, Event.Register p hs ∈ specEvents m V s) ↔
      (V s.Definition.Proxy = true ∧ s.Definition.Active = true)) ∧
    (registerCalls (specEvents m V s)).length =
      (if V s.Definition.Proxy = true ∧ s.Definition.Active = true then 1 else 0) ∧
    (s.Definition.Active = false → registerCalls (specEvents m V s) = []) ∧
    (V s.Definition.Proxy = false → registerCalls (specEvents m V s) = []) := by
  have hcalls := registerCalls_specEvents m V s
  refine ⟨?_, ?_, ?_, ?_, ?_, ?_⟩
  · simp [runLoadApps_append, List.flatMap_cons]
  · rw [skipFlag_run]
  · constructor
    · rintro ⟨p, hs, hmem⟩
      have hm := (mem_registerCalls _ p hs).mpr hmem
      rw [hcalls] at hm
      cases hr : registrable V s
      · simp [hr] at hm
      · simpa [registrable] using hr
    · rintro ⟨hV, hA⟩
      refine ⟨s.Definition.Proxy, BuildChain_spec m s, ?_⟩
      rw [← mem_registerCalls, hcalls]
      simp [registrable, hV, hA]
  · rw [hcalls]
    cases hV : V s.Definition.Proxy <;> cases hA : s.Definition.Active <;>
      simp [registrable, hV, hA]
  · intro hA
    simp [hcalls, registrable, hA]
  · intro hV
    simp [hcalls, registrable, hV]

/-- C1 at scenario B (inactive, valid proxy) between scenario A and scenario C
(active, empty listen path): only scenario A is registered. -/
theorem C1_register_iff_valid_and_active_witness :
    scenarioB.Definition.Active = false ∧
    proxy.Validate scenarioB.Definition.Proxy = true ∧
    registerCalls (specEvents demoLoader proxy.Validate scenarioB) = [] ∧
    proxy.Validate scenarioC.Definition.Proxy = false ∧
    registerCalls (specEvents demoLoader proxy.Validate scenarioC) = [] ∧
    (registerCalls (runLoadApps demoLoader proxy.Validate
      [scenarioA, scenarioB, scenarioC])).length = 1 :=
  ⟨by decide, by decide,
    (C1_register_iff_valid_and_active demoLoader proxy.Validate [scenarioA] [scenarioC]
      scenarioB World.init).2.2.2.2.1 (by decide),
    by decide,
    (C1_register_iff_valid_and_active demoLoader proxy.Validate [scenarioA, scenarioB] []
      scenarioC World.init).2.2.2.2.2 (by decide),
    by decide⟩

/-- C2: a spec that is active and has a valid proxy, at any position of the
list, gets exactly one `Register` call, with its own proxy and the chain
[rate limit with the spec's limit, if enabled] ++ [CORS from the spec's
`CorsMeta`, if enabled] ++ [OAuth key-exists, if `UseOauth2`] and nothing else;
the chain has as many handlers as flags are enabled, and two specs with the
same chain have the same three flags. -/
theorem C2_one_register_with_flag_chain (m : Loader) (V : Proxy → Bool)
    (xs ys : List Spec) (s : Spec)
    (hA : s.Definition.Active = true) (hV : V s.Definition.Proxy = true) :
    registerCalls (specEvents m V s) = [(s.Definition.Proxy, BuildChain_spec m s)] ∧
    registerCalls (runLoadApps m V (xs ++ s :: ys)) =
      registerCalls (runLoadApps m V xs) ++
        (s.Definition.Proxy, BuildChain_spec m s) :: registerCalls (runLoadApps m V ys) ∧
    (BuildChain_spec m s).length =
      s.Definition.RateLimit.Enabled.toNat + s.Definition.CorsMeta.Enabled.toNat +
        s.Definition.UseOauth2.toNat ∧
    (∀ s' : Spec, BuildChain_spec m s' = BuildChain_spec m s →
      s'.Definition.RateLimit.Enabled = s.Definition.RateLimit.Enabled ∧
      s'.Definition.CorsMeta.Enabled = s.Definition.CorsMeta.Enabled ∧
      s'.Definition.UseOauth2 = s.Definition.UseOauth2) := by
  have hr : registrable V s = true := by simp [registrable, hA, hV]
  refine ⟨?_, ?_, BuildChain_spec_length m s, fun s' h => BuildChain_spec_flags m s s' h⟩
  · simp [registerCalls_specEvents, hr]
  · simp [registerCalls_runLoadApps, List.filter_append, List.filter_cons, hr]

/-- C2 at scenario A of §8, placed after the inactive scenario B: the one call
registers `/orders` with [rate limit 100, OAuth]. -/
theorem C2_one_register_with_flag_chain_witness :
    scenarioA.Definition.Active = true ∧
    proxy.Validate scenarioA.Definition.Proxy = true ∧
    registerCalls (runLoadApps demoLoader proxy.Validate [scenarioB, scenarioA]) =
      [(⟨"/orders", "http://orders"⟩,
        [Handler.RateLimit ⟨1, Hasher.PerSecondHasher, 100⟩ Hasher.PerSecondHasher 100,
          Handler.OAuthKeyExists 2])] ∧
    (BuildChain_spec demoLoader scenarioA).length = 2 :=
  ⟨by decide, by decide, by decide,
    (C2_one_register_with_flag_chain demoLoader proxy.Validate [scenarioB] [] scenarioA
      (by decide) (by decide)).2.2.1⟩

/-- C3: every chain that a `LoadApps` run passes to `Register` is the chain of
a registrable spec of the list, and in it every rate-limit handler stands at a
strictly smaller index than every CORS handler and every CORS handler at a
strictly smaller index than every OAuth handler; the rate-limit handler, when
enabled, is the first element, the OAuth handler, when enabled, the last, and
the CORS handler, when enabled, is in the chain. -/
theorem C3_chain_ordering (m : Loader) (V : Proxy → Bool) (specs : List Spec)
    (p : Proxy) (chain : List Handler)
    (h : Event.Register p chain ∈ runLoadApps m V specs) :
    ∃ s ∈ specs, registrable V s = true ∧ p = s.Definition.Proxy ∧
      (∀ (i j : Nat) (a b : Handler), chain[i]? = some a → chain[j]? = some b →
        a.isRateLimit = true → b.isCors = true → i < j) ∧
      (∀ (i j : Nat) (a b : Handler), chain[i]? = some a → chain[j]? = some b →
        a.isCors = true → b.isOAuth = true → i < j) ∧
      (s.Definition.RateLimit.Enabled = true → chain.head? = some (rateLimitHandler m s)) ∧
      (s.Definition.CorsMeta.Enabled = true → Handler.Cors s.Definition.CorsMeta ∈ chain) ∧
      (s.Definition.UseOauth2 = true →
        chain.getLast? = some (Handler.OAuthKeyExists m.manager)) := by
  have hm := (mem_registerCalls _ p chain).mpr h
  rw [registerCalls_runLoadApps] at hm
  obtain ⟨s, hs, heq⟩ := List.mem_map.mp hm
  obtain ⟨hmem, hreg⟩ := List.mem_filter.mp hs
  obtain ⟨hp, hc⟩ := Prod.mk.inj heq
  subst hc
  refine ⟨s, hmem, hreg, hp.symm, ?_, ?_, BuildChain_spec_ends m s⟩
  · intro i j a b hi hj ha hb
    refine BuildChain_spec_order m s i j a b hi hj ?_
    cases a <;> cases b <;> simp_all [Handler.isRateLimit, Handler.isCors, Handler.rank]
  · intro i j a b hi hj ha hb
    refine BuildChain_spec_order m s i j a b hi hj ?_
    cases a <;> cases b <;> simp_all [Handler.isOAuth, Handler.isCors, Handler.rank]

/-- C3 at a spec with all three middlewares enabled: its chain is registered,
and in it rate limit comes first, CORS second, OAuth last. -/
theorem C3_chain_ordering_witness :
    Event.Register fullSpec.Definition.Proxy
        [rateLimitHandler demoLoader fullSpec, Handler.Cors fullSpec.Definition.CorsMeta,
          Handler.OAuthKeyExists demoLoader.manager] ∈
      runLoadApps demoLoader proxy.Validate [scenarioB, fullSpec] ∧
    ∃ s ∈ [scenarioB, fullSpec], registrable proxy.Validate s = true ∧
      fullSpec.Definition.Proxy = s.Definition.Proxy :=
  ⟨by decide,
    let ⟨s, hs, hr, hp, _⟩ := C3_chain_ordering demoLoader proxy.Validate [scenarioB, fullSpec]
      fullSpec.Definition.Proxy
      [rateLimitHandler demoLoader fullSpec, Handler.Cors fullSpec.Definition.CorsMeta,
        Handler.OAuthKeyExists demoLoader.manager] (by decide)
    ⟨s, hs, hr, hp⟩⟩

/-- C4: the `Register` calls of one `LoadApps` run are the input list filtered
to the registrable specs (valid proxy and active) and mapped to (proxy, chain),
in input order; the run over `xs ++ ys` has the effects of the run over `xs`
followed by those of every spec of `ys`, skipped or not, so its `Register`
calls are those of `xs` followed by those of `ys`. -/
theorem C4_register_calls_filter_map (m : Loader) (V : Proxy → Bool)
    (specs xs ys : List Spec) :
    registerCalls (runLoadApps m V specs) =
      ((specs.filter fun s => V s.Definition.Proxy && s.Definition.Active).map
        fun s => (s.Definition.Proxy, BuildChain_spec m s)) ∧
    runLoadApps m V (xs ++ ys) = runLoadApps m V xs ++ ys.flatMap (specEvents m V) ∧
    registerCalls (runLoadApps m V (xs ++ ys)) =
      registerCalls (runLoadApps m V xs) ++ registerCalls (runLoadApps m V ys) := by
  refine ⟨?_, runLoadApps_append m V xs ys, ?_⟩
  · rw [registerCalls_runLoadApps]
    rfl
  · simp [registerCalls_runLoadApps, List.filter_append]


/-- C5: an inactive spec is never registered and its iteration logs two
entries, the debug entry "API is not active, skiping..." and then the error
entry "Listen path is empty, skipping...", whatever its listen path; an active
spec whose proxy fails validation is never registered and logs that same error
entry alone. -/
theorem C5_skip_diagnostics (m : Loader) (V : Proxy → Bool) (s : Spec) :
    (s.Definition.Active = false →
      registerCalls (specEvents m V s) = [] ∧
      specEvents m V s =
        [Event.Log Level.Debug "API is not active, skiping...",
          Event.Log Level.Error "Listen path is empty, skipping..."]) ∧
    (s.Definition.Active = true → V s.Definition.Proxy = false →
      registerCalls (specEvents m V s) = [] ∧
      specEvents m V s = [Event.Log Level.Error "Listen path is empty, skipping..."]) := by
  constructor
  · intro hA
    rw [specEvents_eq]
    simp [registrable, hA, registerCalls]
  · intro hA hV
    rw [specEvents_eq]
    simp [registrable, hA, hV, registerCalls]

/-- C5 at scenario B (inactive, listen path `/b`) and scenario C (active, empty
listen path): scenario B logs two entries, the second being the one entry of
scenario C. -/
theorem C5_skip_diagnostics_witness :
    scenarioB.Definition.Active = false ∧
    scenarioB.Definition.Proxy.ListenPath = "/b" ∧
    logEntries (specEvents demoLoader proxy.Validate scenarioB) =
      [(Level.Debug, "API is not active, skiping..."),
        (Level.Error, "Listen path is empty, skipping...")] ∧
    logEntries (specEvents demoLoader proxy.Validate scenarioC) =
      [(Level.Error, "Listen path is empty, skipping...")] ∧
    specEvents demoLoader proxy.Validate scenarioB =
      [Event.Log Level.Debug "API is not active, skiping...",
        Event.Log Level.Error "Listen path is empty, skipping..."] ∧
    specEvents demoLoader proxy.Validate scenarioC =
      [Event.Log Level.Error "Listen path is empty, skipping..."] :=
  ⟨by decide, by decide, by decide, by decide,
    ((C5_skip_diagnostics demoLoader proxy.Validate scenarioB).1 (by decide)).2,
    ((C5_skip_diagnostics demoLoader proxy.Validate scenarioC).2 (by decide) (by decide)).2⟩

/-- C6: if creating the repository fails, or `FindAll` fails, `Load` ends in
the panic with that error, having logged the debug line and the panic entry
and made no `Register` call; if the fetch succeeds with definitions `defs`,
`Load` ends normally and its effects after the debug line are those of one
`LoadApps` run on exactly the specs wrapping `defs`, in order. -/
theorem C6_fetch_failure_no_register (m : Loader) (V : Proxy → Bool) (w : World) :
    (∀ err, m.accessor.NewMongoAppRepository = Except.error err →
      (Load m V).run.run w =
        (Except.error err,
          w.addTrace [Event.Log Level.Debug "Using App Configuration from Mongo DB",
            Event.Log Level.Panic err]) ∧
      registerCalls ((Load m V).run.run w).2.trace = registerCalls w.trace) ∧
    (∀ repo err, m.accessor.NewMongoAppRepository = Except.ok repo →
      repo.FindAll = Except.error err →
      (Load m V).run.run w =
        (Except.error err,
          w.addTrace [Event.Log Level.Debug "Using App Configuration from Mongo DB",
            Event.Log Level.Panic err]) ∧
      registerCalls ((Load m V).run.run w).2.trace = registerCalls w.trace) ∧
    (∀ repo defs, m.accessor.NewMongoAppRepository = Except.ok repo →
      repo.FindAll = Except.ok defs →
      ((Load m V).run.run w).1 = Except.ok () ∧
      ((Load m V).run.run w).2.trace =
        w.trace ++ [Event.Log Level.Debug "Using App Configuration from Mongo DB"] ++
          runLoadApps m V (defs.map Spec.mk)) := by
  refine ⟨?_, ?_, ?_⟩
  · intro err h
    have hl := Load_run_error m V w _ err (getAPISpecs_run_newRepo_error m w err h)
    rw [hl]
    simp [World.addTrace, registerCalls_append, registerCalls]
  · intro repo err h hf
    have hl := Load_run_error m V w _ err (getAPISpecs_run_findAll_error m w repo err h hf)
    rw [hl]
    simp [World.addTrace, registerCalls_append, registerCalls]
  · intro repo defs h hf
    rw [Load_run_ok m V w repo defs h hf, runLoadApps_eq]
    simp

/-- C6 at a loader whose repository cannot be created, one whose read fails,
and one whose store holds scenarios A and B. -/
theorem C6_fetch_failure_no_register_witness :
    noRepoLoader.accessor.NewMongoAppRepository = Except.error "no reachable servers" ∧
    ((Load noRepoLoader proxy.Validate).run.run World.init).1 =
      Except.error "no reachable servers" ∧
    registerCalls ((Load noRepoLoader proxy.Validate).run.run World.init).2.trace = [] ∧
    registerCalls ((Load noReadLoader proxy.Validate).run.run World.init).2.trace = [] ∧
    ((Load twoDefsLoader proxy.Validate).run.run World.init).2.trace =
      [Event.Log Level.Debug "Using App Configuration from Mongo DB"] ++
        runLoadApps twoDefsLoader proxy.Validate [scenarioA, scenarioB] :=
  ⟨rfl, rfl,
    ((C6_fetch_failure_no_register noRepoLoader proxy.Validate World.init).1
      "no reachable servers" rfl).2,
    ((C6_fetch_failure_no_register noReadLoader proxy.Validate World.init).2.1
      ⟨Except.error "read failed"⟩ "read failed" rfl rfl).2,
    ((C6_fetch_failure_no_register twoDefsLoader proxy.Validate World.init).2.2
      ⟨Except.ok [scenarioA.Definition, scenarioB.Definition]⟩
      [scenarioA.Definition, scenarioB.Definition] rfl rfl).2⟩


/-! ## The registry -/

theorem foldl_Register_apply (cs : List (Proxy × List Handler)) (r : Registry) (path : String) :
    cs.foldl (fun acc call => acc.Register call.1 call.2) r path =
      ((cs.filter fun c => c.1.ListenPath == path).getLast?).or (r path) := by
  induction cs using List.reverseRecOn with
  | nil => simp
  | append_singleton cs c ih =>
    rw [List.foldl_append, List.filter_append, List.getLast?_append]
    by_cases hc : path = c.1.ListenPath
    · simp [Registry.Register, hc]
    · have hc' : ¬ c.1.ListenPath = path := fun h => hc h.symm
      simp [Registry.Register, hc, hc', ih]

theorem registryAfter_runLoadApps (m : Loader) (V : Proxy → Bool) (specs : List Spec)
    (r : Registry) (path : String) :
    registryAfter r (runLoadApps m V specs) path =
      (((specs.filter fun s => registrable V s && s.Definition.Proxy.ListenPath == path).getLast?).map
        fun s => (s.Definition.Proxy, BuildChain_spec m s)).or (r path) := by
  unfold registryAfter
  rw [foldl_Register_apply, registerCalls_runLoadApps, List.filter_map, List.filter_filter,
    List.getLast?_map]
  congr 4
  funext s
  simp [Bool.and_comm]

theorem errorEntries_flatMap (m : Loader) (V : Proxy → Bool) (specs : List Spec) :
    ((logEntries (specs.flatMap (specEvents m V))).filter fun e => e.1 == Level.Error).length =
      (specs.filter fun s => !registrable V s).length := by
  induction specs with
  | nil => simp [logEntries]
  | cons s rest ih =>
    rw [List.flatMap_cons, logEntries_append, List.filter_append, List.length_append, ih,
      specEvents_eq]
    cases hr : registrable V s <;> cases s.Definition.Active <;>
    cases s.Definition.RateLimit.Enabled <;> cases s.Definition.CorsMeta.Enabled <;>
    cases s.Definition.UseOauth2 <;> simp [logEntries, List.filter_cons, hr] <;> omega

/-- C7: with the registry a table from listen path to entry in which `Register`
overwrites the entry of the path, after `LoadApps` every listen path that some
registrable spec of the list has is mapped to the proxy and chain of the last
registrable spec of the list with that path; `LoadApps` has no failure outcome,
and the error entries it logs are one per non-registrable spec, none for a
repeated path. -/
theorem C7_last_registration_wins (m : Loader) (V : Proxy → Bool) (specs : List Spec)
    (r : Registry) (path : String)
    (h : ∃ s ∈ specs, registrable V s = true ∧ s.Definition.Proxy.ListenPath = path) :
    (∃ last,
      (specs.filter fun s =>
        registrable V s && s.Definition.Proxy.ListenPath == path).getLast? = some last ∧
      registryAfter r (runLoadApps m V specs) path =
        some (last.Definition.Proxy, BuildChain_spec m last)) ∧
    ((logEntries (runLoadApps m V specs)).filter fun e => e.1 == Level.Error).length =
      (specs.filter fun s => !registrable V s).length := by
  constructor
  · obtain ⟨s, hs, hr, hp⟩ := h
    have hne : (specs.filter fun s =>
        registrable V s && s.Definition.Proxy.ListenPath == path) ≠ [] := by
      intro hnil
      have := (List.filter_eq_nil_iff.mp hnil) s hs
      simp [hr, hp] at this
    cases hl : (specs.filter fun s =>
        registrable V s && s.Definition.Proxy.ListenPath == path).getLast? with
    | none => exact absurd (List.getLast?_eq_none_iff.mp hl) hne
    | some last =>
      refine ⟨last, rfl, ?_⟩
      rw [registryAfter_runLoadApps, hl]
      rfl
  · rw [runLoadApps_eq]
    have := errorEntries_flatMap m V specs
    simpa [logEntries, List.filter_cons] using this

/-- C7 at scenario D of §8: two active, valid specs share `/a`; the registry
holds the second one's proxy and chain under `/a`, and no error is logged. -/
theorem C7_last_registration_wins_witness :
    (∃ s ∈ [scenarioD1, scenarioD2],
      registrable proxy.Validate s = true ∧ s.Definition.Proxy.ListenPath = "/a") ∧
    registryAfter Registry.empty
        (runLoadApps demoLoader proxy.Validate [scenarioD1, scenarioD2]) "/a" =
      some (scenarioD2.Definition.Proxy,
        [Handler.RateLimit ⟨1, Hasher.PerSecondHasher, 3⟩ Hasher.PerSecondHasher 3,
          Handler.OAuthKeyExists 2]) ∧
    ((logEntries (runLoadApps demoLoader proxy.Validate [scenarioD1, scenarioD2])).filter
      fun e => e.1 == Level.Error).length = 0 :=
  ⟨⟨scenarioD1, by decide, by decide, by decide⟩, by decide,
    (C7_last_registration_wins demoLoader proxy.Validate [scenarioD1, scenarioD2]
      Registry.empty "/a" ⟨scenarioD1, by decide, by decide, by decide⟩).2⟩


/-! ## Claims about the limiter and the fetch -/

theorem limiterCalls_specEvents (m : Loader) (V : Proxy → Bool) (s : Spec) :
    limiterCalls (specEvents m V s) =
      if registrable V s then
        [⟨m.redisClient, Hasher.PerSecondHasher, s.Definition.RateLimit.Limit⟩]
      else [] := by
  rw [specEvents_eq]
  cases registrable V s <;> cases s.Definition.Active <;>
  cases s.Definition.RateLimit.Enabled <;> cases s.Definition.CorsMeta.Enabled <;>
  cases s.Definition.UseOauth2 <;> simp [limiterCalls]

theorem isRateLimit_mem_BuildChain_spec (m : Loader) (s : Spec) :
    (∃ h ∈ BuildChain_spec m s, h.isRateLimit = true) ↔
      s.Definition.RateLimit.Enabled = true := by
  unfold BuildChain_spec
  cases s.Definition.RateLimit.Enabled <;> cases s.Definition.CorsMeta.Enabled <;>
  cases s.Definition.UseOauth2 <;> simp [Handler.isRateLimit]

theorem rateLimit_of_mem_BuildChain_spec (m : Loader) (s : Spec) (h : Handler)
    (hmem : h ∈ BuildChain_spec m s) (hrl : h.isRateLimit = true) :
    h = rateLimitHandler m s := by
  unfold BuildChain_spec at hmem
  unfold rateLimitHandler
  cases h1 : s.Definition.RateLimit.Enabled <;> cases h2 : s.Definition.CorsMeta.Enabled <;>
  cases h3 : s.Definition.UseOauth2 <;> simp [h1, h2, h3] at hmem <;>
    (try rcases hmem with hmem | hmem | hmem) <;> (try rcases hmem with hmem | hmem) <;>
    simp_all [Handler.isRateLimit]

theorem rateLimitHandler_mem_BuildChain_spec (m : Loader) (s : Spec) :
    rateLimitHandler m s ∈ BuildChain_spec m s ↔ s.Definition.RateLimit.Enabled = true := by
  unfold BuildChain_spec rateLimitHandler
  cases s.Definition.RateLimit.Enabled <;> cases s.Definition.CorsMeta.Enabled <;>
  cases s.Definition.UseOauth2 <;> simp

/-- C8, as the code has it: the iteration for a spec constructs a limiter,
with the loader's redis client and the spec's `RateLimit.Limit`, exactly when
the spec is registrable (valid proxy and active), whether or not
`RateLimit.Enabled` is true, and constructs none for a spec that is skipped;
the chain passed to `Register` holds the rate-limit handler built from that
limiter, the per-second hasher and the spec's limit if and only if
`RateLimit.Enabled` is true, every rate-limit handler of the chain is that
one, built from a limiter constructed in the same iteration, and the chain
holds some rate-limit handler if and only if `RateLimit.Enabled` is true. -/
theorem C8_limiter_built_when_registrable (m : Loader) (V : Proxy → Bool) (s : Spec) :
    limiterCalls (specEvents m V s) =
      (if V s.Definition.Proxy && s.Definition.Active then
        [⟨m.redisClient, Hasher.PerSecondHasher, s.Definition.RateLimit.Limit⟩]
      else []) ∧
    (∀ p chain, Event.Register p chain ∈ specEvents m V s →
      (Handler.RateLimit
          ⟨m.redisClient, Hasher.PerSecondHasher, s.Definition.RateLimit.Limit⟩
          Hasher.PerSecondHasher s.Definition.RateLimit.Limit ∈ chain ↔
        s.Definition.RateLimit.Enabled = true) ∧
      (∀ h ∈ chain, h.isRateLimit = true →
        ∃ l ∈ limiterCalls (specEvents m V s),
          l.max = s.Definition.RateLimit.Limit ∧
          h = Handler.RateLimit l Hasher.PerSecondHasher s.Definition.RateLimit.Limit) ∧
      ((∃ h ∈ chain, h.isRateLimit = true) ↔ s.Definition.RateLimit.Enabled = true)) := by
  refine ⟨limiterCalls_specEvents m V s, ?_⟩
  intro p chain hmem
  have hm := (mem_registerCalls _ p chain).mpr hmem
  rw [registerCalls_specEvents] at hm
  cases hr : registrable V s
  · simp [hr] at hm
  · simp only [hr, if_true, List.mem_singleton] at hm
    obtain ⟨_, hc⟩ := Prod.mk.inj hm
    subst hc
    refine ⟨rateLimitHandler_mem_BuildChain_spec m s, ?_, isRateLimit_mem_BuildChain_spec m s⟩
    intro h hh hrl
    refine ⟨⟨m.redisClient, Hasher.PerSecondHasher, s.Definition.RateLimit.Limit⟩, ?_, rfl,
      rateLimit_of_mem_BuildChain_spec m s h hh hrl⟩
    rw [limiterCalls_specEvents, hr]
    simp

/-- C8 at an active, valid spec with all middlewares enabled and limit 10 (the
rate-limit handler with limit 10 is in the registered chain) and at an active,
valid spec with rate limiting disabled and limit 7 (the limiter with limit 7 is
constructed, and the rate-limit handler with limit 7 is not in the registered
chain). -/
theorem C8_limiter_built_when_registrable_witness :
    Event.Register fullSpec.Definition.Proxy
        [Handler.RateLimit ⟨1, Hasher.PerSecondHasher, 10⟩ Hasher.PerSecondHasher 10,
          Handler.Cors ⟨true, ["*"]⟩, Handler.OAuthKeyExists 2] ∈
      specEvents demoLoader proxy.Validate fullSpec ∧
    (Handler.RateLimit ⟨1, Hasher.PerSecondHasher, 10⟩ Hasher.PerSecondHasher 10 ∈
        [Handler.RateLimit ⟨1, Hasher.PerSecondHasher, 10⟩ Hasher.PerSecondHasher 10,
          Handler.Cors ⟨true, ["*"]⟩, Handler.OAuthKeyExists 2] ↔
      fullSpec.Definition.RateLimit.Enabled = true) ∧
    fullSpec.Definition.RateLimit.Enabled = true ∧
    limiterCalls (specEvents demoLoader proxy.Validate fullSpec) =
      [⟨1, Hasher.PerSecondHasher, 10⟩] ∧
    Event.Register noLimitSpec.Definition.Proxy [] ∈
      specEvents demoLoader proxy.Validate noLimitSpec ∧
    limiterCalls (specEvents demoLoader proxy.Validate noLimitSpec) =
      [⟨1, Hasher.PerSecondHasher, 7⟩] ∧
    (Handler.RateLimit ⟨1, Hasher.PerSecondHasher, 7⟩ Hasher.PerSecondHasher 7 ∈
        ([] : List Handler) ↔
      noLimitSpec.Definition.RateLimit.Enabled = true) :=
  ⟨by decide,
    ((C8_limiter_built_when_registrable demoLoader proxy.Validate fullSpec).2
      fullSpec.Definition.Proxy _ (by decide)).1,
    by decide, by decide, by decide,
    (C8_limiter_built_when_registrable demoLoader proxy.Validate noLimitSpec).1,
    ((C8_limiter_built_when_registrable demoLoader proxy.Validate noLimitSpec).2
      noLimitSpec.Definition.Proxy [] (by decide)).1⟩

/-- C8 as stated fails: for an active, valid spec with `RateLimit.Enabled`
false and `Limit` 7, the `LoadApps` run constructs a limiter, with the limit 7
read from the spec. -/
theorem C8_counterexample :
    noLimitSpec.Definition.RateLimit.Enabled = false ∧
    limiterCalls (runLoadApps demoLoader proxy.Validate [noLimitSpec]) =
      [⟨1, Hasher.PerSecondHasher, 7⟩] ∧
    ¬ ((∃ l, Event.NewLimiter l ∈ runLoadApps demoLoader proxy.Validate [noLimitSpec]) →
      noLimitSpec.Definition.RateLimit.Enabled = true) :=
  ⟨by decide, by decide, fun h =>
    absurd (h ⟨⟨1, Hasher.PerSecondHasher, 7⟩, by decide⟩) (by decide)⟩

theorem getElem?_append_length_add (pre xs : List Spec) (i : Nat) :
    (pre ++ xs)[pre.length + i]? = xs[i]? := by
  rw [List.getElem?_append_right (Nat.le_add_right _ _), Nat.add_sub_cancel_left]

/-- C10: when the read succeeds with definitions `defs`, `getAPISpecs` returns
a non-nil slice of as many `*Spec` as there are definitions; the addresses are
pairwise distinct and none was allocated before the call; the variable at the
`i`-th address holds the zero `Spec` with only `Definition` set, to the `i`-th
definition; the variables allocated before are unchanged; for no definition the
result is the empty, non-nil slice. -/
theorem C10_structural_copy (m : Loader) (w : World) (repo : Repo) (defs : List Definition)
    (h : m.accessor.NewMongoAppRepository = Except.ok repo)
    (hf : repo.FindAll = Except.ok defs) :
    ∃ (ptrs : List Ptr) (w' : World),
      (getAPISpecs m).run.run w = (Except.ok (some ptrs), w') ∧
      ptrs.length = defs.length ∧
      ptrs.Nodup ∧
      (∀ p ∈ ptrs, w.heap.length ≤ p) ∧
      (∀ i, i < defs.length →
        ∃ p d, ptrs[i]? = some p ∧ defs[i]? = some d ∧
          w'.heap[p]? = some { Spec.zero with Definition := d }) ∧
      ptrs.map (fun p => w'.heap[p]?) = defs.map (fun d => some (Spec.mk d)) ∧
      w'.heap.take w.heap.length = w.heap ∧
      w'.heap.length = w.heap.length + defs.length ∧
      (defs = [] → ptrs = []) := by
  refine ⟨List.range' w.heap.length defs.length, _, getAPISpecs_run_ok m w repo defs h hf,
    ?_, ?_, ?_, ?_, ?_, ?_, ?_, ?_⟩
  · simp
  · exact List.nodup_range' _ _
  · intro p hp
    exact (List.mem_range'_1.mp hp).1
  · intro i hi
    refine ⟨w.heap.length + i, defs[i], ?_, ?_, ?_⟩
    · simp [List.getElem?_range' _ _ hi]
    · simp [hi]
    · show (w.heap ++ defs.map Spec.mk)[w.heap.length + i]? = _
      rw [getElem?_append_length_add]
      simp [hi]
  · apply List.ext_getElem?
    intro i
    by_cases hi : i < defs.length
    · simp only [List.getElem?_map, List.getElem?_range' _ _ hi, Option.map_some', Nat.one_mul,
        getElem?_append_length_add]
      simp [hi]
    · have hi' : defs.length ≤ i := Nat.le_of_not_lt hi
      simp [List.getElem?_eq_none, hi']
  · simp
  · simp
  · intro hd
    simp [hd]

/-- C10 at a store holding the definitions of scenarios A and B, and at an
empty store. -/
theorem C10_structural_copy_witness :
    twoDefsLoader.accessor.NewMongoAppRepository =
      Except.ok ⟨Except.ok [scenarioA.Definition, scenarioB.Definition]⟩ ∧
    (getAPISpecs twoDefsLoader).run.run World.init =
      (Except.ok (some [0, 1]),
        ⟨[Event.Log Level.Debug "Using App Configuration from Mongo DB"],
          [scenarioA, scenarioB]⟩) ∧
    ((getAPISpecs demoLoader).run.run World.init).1 = Except.ok (some []) ∧
    ∃ (ptrs : List Ptr) (w' : World),
      (getAPISpecs twoDefsLoader).run.run World.init = (Except.ok (some ptrs), w') ∧
      ptrs.length = 2 ∧ ptrs.Nodup :=
  ⟨rfl, rfl, rfl,
    let ⟨ptrs, w', hrun, hlen, hnd, _⟩ := C10_structural_copy twoDefsLoader World.init
      ⟨Except.ok [scenarioA.Definition, scenarioB.Definition]⟩
      [scenarioA.Definition, scenarioB.Definition] rfl rfl
    ⟨ptrs, w', hrun, hlen, hnd⟩⟩

end Janus
